import Mathlib

/-! Verification development for the wormhole-server room lifecycle subsystem:
identifier allocation with bounded collision retry (`RoomRegistry.create_room`),
lookup, enumeration and deletion of rooms, per-room idle-deletion timers
(`Room.schedule_deletion` / `Room.cancel_deletion`), and the deletion handler
consuming the deletion-request channel (`watch_step`).

Spawned tokio tasks are modelled by an explicit `World` value holding the
spawned timer tasks, the queued content of the deletion-request channel, and a
discrete clock; a `JoinHandle<()>` is an index into the list of spawned timers.
Stateful Rust methods become functions that take and return this explicit
state. -/

namespace Wormhole

/-- Maximum number of redraw attempts of `create_room` before it fails
(constant `MAX_CREATE_ROOM_ID_ATTEMPTS` in room_registry.rs). -/
def MAX_CREATE_ROOM_ID_ATTEMPTS : Nat := 5

/-- Default timeout in seconds before an idle room requests cleanup
(constant `DEFAULT_DELETION_TIMEOUT_SECONDS` in room.rs). -/
def DEFAULT_DELETION_TIMEOUT_SECONDS : Nat := 30

/-- Capacity of the deletion-request channel (constant
`DEFAULT_DELETION_CHANNEL_BUFFER_SIZE` in room_deletion_handler.rs); a full
channel blocks the sender, which a terminating shallow embedding cannot
exhibit, so sends are modelled as always enqueueing. -/
def DEFAULT_DELETION_CHANNEL_BUFFER_SIZE : Nat := 100

/-- An ID that uniquely identifies a room within a registry:
`struct RoomId(u128)` in room_registry.rs, with derived (structural)
equality; the `u128` value is modelled as a natural number (no arithmetic is
ever performed on it). -/
structure RoomId where
  val : Nat
deriving DecidableEq

/-- Id type that uniquely identifies a player: `struct PlayerId(u128)` in
player.rs. -/
structure PlayerId where
  val : Nat
deriving DecidableEq

/-- A player in a room (player.rs); its equality compares the `id` field,
which is its only field, so structural equality coincides with it. -/
structure Player where
  id : PlayerId
deriving DecidableEq

/-- The sending half of the deletion-request channel
(`tokio::sync::mpsc::Sender<RoomId>`), modelled as a plain token: the
channel's queued content lives in `World.channel`. -/
structure Sender where
  token : Nat
deriving DecidableEq

/-- Lifecycle status of a spawned deletion-timer task. -/
inductive TimerStatus
  | armed
  | fired
  | aborted
deriving DecidableEq

/-- A spawned idle-deletion timer task (the async block in
`Room::schedule_deletion`): it sleeps until `deadline` and then sends
`roomId` on the deletion-request channel, unless aborted first. -/
structure Timer where
  roomId : RoomId
  deadline : Nat
  status : TimerStatus
deriving DecidableEq

/-- The runtime state outside the registry: a discrete clock, the spawned
timer tasks (a task handle is an index into `timers`), and the queued content
of the deletion-request channel. -/
structure World where
  now : Nat
  timers : List Timer
  channel : List RoomId
deriving DecidableEq

/-- A room (room.rs): its id, the sender of the deletion-request channel, an
optional handle to its currently scheduled deletion-timer task, and its set
of players (a `HashSet<Player>`, modelled as a list). -/
structure Room where
  id : RoomId
  deletion_channel : Sender
  deletion_handle : Option Nat
  players : List Player
deriving DecidableEq

/-- The `PartialEq` implementation for `Room` in room.rs compares only the
`id` fields: `self.id.eq(&other.id)`. -/
def Room.eq (a b : Room) : Bool := a.id == b.id

/-- `Room::schedule_deletion`: spawns a timer task that sleeps for
`DEFAULT_DELETION_TIMEOUT_SECONDS` and then sends the room's id on the
deletion channel, and stores the new task's handle in `deletion_handle`.
A handle already present is overwritten; the Rust code drops it without
calling `abort`, which detaches the old task rather than stopping it. -/
def Room.schedule_deletion (room : Room) (w : World) : Room × World :=
  let handle := w.timers.length
  let w' : World :=
    { w with timers :=
        w.timers ++ [⟨room.id, w.now + DEFAULT_DELETION_TIMEOUT_SECONDS, TimerStatus.armed⟩] }
  ({ room with deletion_handle := some handle }, w')

/-- `Room::new`: builds the room with no deletion handle and an empty player
set, then immediately calls `schedule_deletion` on it. -/
def Room.new (id : RoomId) (deletion_channel : Sender) (w : World) : Room × World :=
  let this : Room := ⟨id, deletion_channel, none, []⟩
  this.schedule_deletion w

/-- `JoinHandle::abort` on a timer task: a still-armed task is aborted and
will never run its send; a task that already ran to completion (fired) is
unaffected. -/
def abortTimer (w : World) (t : Nat) : World :=
  match w.timers[t]? with
  | none => w
  | some timer =>
    if timer.status = TimerStatus.armed then
      { w with timers := w.timers.set t { timer with status := TimerStatus.aborted } }
    else w

/-- `Room::cancel_deletion`: aborts the task behind `deletion_handle` if one
is held (when the handle is `None` it only logs), then sets the handle to
`None` in either case. -/
def Room.cancel_deletion (room : Room) (w : World) : Room × World :=
  match room.deletion_handle with
  | none => ({ room with deletion_handle := none }, w)
  | some h => ({ room with deletion_handle := none }, abortTimer w h)

/-- A timer task completing its sleep and executing its send: enabled once
the clock has reached the task's deadline while the task is still armed; the
room id is appended to the deletion-request channel and the task is consumed
(it can fire at most once). -/
def fireTimer (w : World) (t : Nat) : World :=
  match w.timers[t]? with
  | none => w
  | some timer =>
    if timer.status = TimerStatus.armed ∧ timer.deadline ≤ w.now then
      { w with timers := w.timers.set t { timer with status := TimerStatus.fired },
               channel := w.channel ++ [timer.roomId] }
    else w

/-- Advances the discrete clock by `d` seconds. -/
def advanceTime (w : World) (d : Nat) : World := { w with now := w.now + d }

/-- Runtime events outside the registry: time passing, and a spawned timer
task firing. -/
inductive WorldEvent
  | advance (d : Nat)
  | fire (t : Nat)

/-- Interpretation of a single runtime event. -/
def stepWorld (w : World) : WorldEvent → World
  | WorldEvent.advance d => advanceTime w d
  | WorldEvent.fire t => fireTimer w t

/-- Interpretation of a sequence of runtime events. -/
def runWorld (w : World) : List WorldEvent → World
  | [] => w
  | e :: es => runWorld (stepWorld w e) es

/-- The room table `HashMap<RoomId, Room>`, modelled as an association list;
`mapInsert` and `mapRemove` keep keys unique exactly as a hash map does. -/
abbrev RoomMap := List (RoomId × Room)

/-- `HashMap::contains_key`. -/
def containsKey (m : RoomMap) (id : RoomId) : Bool :=
  m.any (fun p => p.1 == id)

/-- `HashMap::keys`. -/
def mapKeys (m : RoomMap) : List RoomId := m.map (fun p => p.1)

/-- `HashMap::get`. -/
def mapGet (m : RoomMap) (id : RoomId) : Option Room :=
  (m.find? (fun p => p.1 == id)).map (fun p => p.2)

/-- `HashMap::insert`: replaces the value of an existing key, otherwise adds
the entry. -/
def mapInsert (m : RoomMap) (id : RoomId) (room : Room) : RoomMap :=
  if containsKey m id then
    m.map (fun p => if p.1 == id then (id, room) else p)
  else m ++ [(id, room)]

/-- `HashMap::remove` (ignoring the returned value, as `delete_room` does):
drops the entry with the given key if present. -/
def mapRemove (m : RoomMap) (id : RoomId) : RoomMap :=
  m.filter (fun p => !(p.1 == id))

/-- `RoomRegistry` (room_registry.rs): the table of live rooms. The id
provider type parameter has no runtime state (`provide_id()` takes no
arguments), so the provider is modelled as the stream of values returned by
its successive `provide_id()` calls, passed explicitly to `create_room`. -/
structure RoomRegistry where
  rooms : RoomMap
deriving DecidableEq

/-- `RoomRegistry::new`: an empty table. -/
def RoomRegistry.new : RoomRegistry := ⟨[]⟩

/-- `RoomRegistry::get_room_for_id`: pure lookup; it takes `&self`, so by
construction it cannot modify the registry, and any value convertible into a
`RoomId` is converted before the lookup. -/
def RoomRegistry.get_room_for_id (reg : RoomRegistry) (id : RoomId) : Option Room :=
  mapGet reg.rooms id

/-- Errors of room creation (room_registry.rs). -/
inductive RoomCreationError
  | UnableToCreateIdentifier (attempts : Nat)
deriving DecidableEq

/-- The `while self.rooms.contains_key(&id)` loop of `create_room`: `id` is
the current candidate, `attempts` the redraw counter, and `k` the number of
provider draws made so far (`draw j` is the value returned by the `j`-th
`provide_id()` call). Returns the accepted id or the error, paired with the
total number of draws consumed. -/
def create_room_loop (rooms : RoomMap) (draw : Nat → RoomId) (id : RoomId)
    (attempts k : Nat) : (Except RoomCreationError RoomId) × Nat :=
  if containsKey rooms id then
    if h : MAX_CREATE_ROOM_ID_ATTEMPTS ≤ attempts then
      (Except.error (RoomCreationError.UnableToCreateIdentifier MAX_CREATE_ROOM_ID_ATTEMPTS), k)
    else
      create_room_loop rooms draw (draw k) (attempts + 1) (k + 1)
  else (Except.ok id, k)
termination_by MAX_CREATE_ROOM_ID_ATTEMPTS + 1 - attempts
decreasing_by simp_wf; omega

/-- Result of one `create_room` call: the returned value, the registry and
runtime afterwards, and how many ids the provider was asked for. -/
structure CreateResult where
  result : Except RoomCreationError RoomId
  registry : RoomRegistry
  world : World
  draws : Nat

/-- `RoomRegistry::create_room`: draws an initial candidate id, redraws while
the candidate collides (up to `MAX_CREATE_ROOM_ID_ATTEMPTS` redraws, six
draws in total), and on success constructs the room (arming its idle timer as
a side effect) and inserts it under the accepted id; a failure performs no
mutation of the registry or of the runtime. -/
def RoomRegistry.create_room (reg : RoomRegistry) (deletion_sender : Sender)
    (draw : Nat → RoomId) (w : World) : CreateResult :=
  match create_room_loop reg.rooms draw (draw 0) 0 1 with
  | (Except.error e, k) => ⟨Except.error e, reg, w, k⟩
  | (Except.ok id, k) =>
    let p := Room.new id deletion_sender w
    ⟨Except.ok id, ⟨mapInsert reg.rooms id p.1⟩, p.2, k⟩

/-- Lowercase hexadecimal digit character, as rendered by the `uuid` crate. -/
def hexDigit (n : Nat) : Char :=
  if n < 10 then Char.ofNat (48 + n) else Char.ofNat (87 + n)

/-- Big-endian rendering of a value as a fixed number of hexadecimal
nibbles. -/
def hexNibbles : Nat → Nat → List Char
  | 0, _ => []
  | wd + 1, v => hexNibbles wd (v / 16) ++ [hexDigit (v % 16)]

/-- The `Display` implementation for `RoomId`: `Uuid::from_u128(self.0)`
rendered in the hyphenated lowercase UUID hexadecimal format
(8-4-4-4-12 nibbles of the 128-bit value). -/
def RoomId.display (id : RoomId) : String :=
  let c := hexNibbles 32 id.val
  String.mk (c.take 8) ++ "-" ++ String.mk ((c.drop 8).take 4) ++ "-" ++
    String.mk ((c.drop 12).take 4) ++ "-" ++ String.mk ((c.drop 16).take 4) ++ "-" ++
    String.mk (c.drop 20)

/-- `RoomRegistry::list_active_rooms`: the current keys of the table rendered
with the `Display` implementation for `RoomId`; takes `&self`, so by
construction it cannot modify the registry. -/
def RoomRegistry.list_active_rooms (reg : RoomRegistry) : List String :=
  (mapKeys reg.rooms).map (fun rm => rm.display)

/-- `RoomRegistry::delete_room`: removes the entry for `id` if present; its
return type is `()` in the source, so it cannot signal an error. -/
def RoomRegistry.delete_room (reg : RoomRegistry) (id : RoomId) : RoomRegistry :=
  ⟨mapRemove reg.rooms id⟩

/-- One iteration of the loop in `RoomDeletionHandler::watch`: if a deletion
request is queued on the channel, receive it, acquire the registry lock, and
call `delete_room` with it; while the channel is empty the loop is suspended
in `recv` and nothing changes. -/
def watch_step (reg : RoomRegistry) (w : World) : RoomRegistry × World :=
  match w.channel with
  | [] => (reg, w)
  | id :: rest => (reg.delete_room id, { w with channel := rest })

/-- Registry states reachable through the public operations of the program:
construction, `create_room` and `delete_room` (the latter either called
directly or by the deletion handler); `get_room_for_id` and
`list_active_rooms` take `&self` and return no registry, so they do not
produce new states. -/
inductive Reachable : RoomRegistry → Prop
  | new : Reachable RoomRegistry.new
  | create (reg : RoomRegistry) (s : Sender) (draw : Nat → RoomId) (w : World) :
      Reachable reg → Reachable (reg.create_room s draw w).registry
  | delete (reg : RoomRegistry) (id : RoomId) :
      Reachable reg → Reachable (reg.delete_room id)

/-- The documented invariants of the room table: every key equals the `id`
field of its value, and no two entries share a key. -/
def registryInv (reg : RoomRegistry) : Prop :=
  (∀ p ∈ reg.rooms, p.2.id = p.1) ∧ (mapKeys reg.rooms).Nodup

/-- Result of a sequence of `create_room` calls: the ids returned by the
successful calls, in order, with the final registry and runtime. -/
structure RunResult where
  ids : List RoomId
  registry : RoomRegistry
  world : World

/-- Runs a sequence of `create_room` calls against one registry instance;
each call supplies its own sender and its own provider draw stream. -/
def run_creates : RoomRegistry → World → List (Sender × (Nat → RoomId)) → RunResult
  | reg, w, [] => ⟨[], reg, w⟩
  | reg, w, (s, draw) :: rest =>
    let r := reg.create_room s draw w
    let res := run_creates r.registry r.world rest
    match r.result with
    | Except.ok id => ⟨id :: res.ids, res.registry, res.world⟩
    | Except.error _ => res

/-! Helper lemmas about the map model and the creation loop. -/

theorem create_room_loop_unfold (rooms : RoomMap) (draw : Nat → RoomId) (id : RoomId)
    (attempts k : Nat) :
    create_room_loop rooms draw id attempts k =
      if containsKey rooms id then
        if MAX_CREATE_ROOM_ID_ATTEMPTS ≤ attempts then
          (Except.error (RoomCreationError.UnableToCreateIdentifier MAX_CREATE_ROOM_ID_ATTEMPTS), k)
        else create_room_loop rooms draw (draw k) (attempts + 1) (k + 1)
      else (Except.ok id, k) := by
  rw [create_room_loop]
  split
  · split
    · rfl
    · rfl
  · rfl

theorem create_room_loop_all_collide (rooms : RoomMap) (draw : Nat → RoomId)
    (hdraw : ∀ j, containsKey rooms (draw j) = true) :
    ∀ (n attempts k : Nat) (id : RoomId), attempts + n = MAX_CREATE_ROOM_ID_ATTEMPTS →
      containsKey rooms id = true →
      create_room_loop rooms draw id attempts k =
        (Except.error (RoomCreationError.UnableToCreateIdentifier MAX_CREATE_ROOM_ID_ATTEMPTS),
          k + n) := by
  intro n
  induction n with
  | zero =>
    intro attempts k id ha hid
    rw [create_room_loop_unfold]
    have h5 : MAX_CREATE_ROOM_ID_ATTEMPTS ≤ attempts := by omega
    simp [hid, h5]
  | succ n ih =>
    intro attempts k id ha hid
    rw [create_room_loop_unfold]
    have h5 : ¬ MAX_CREATE_ROOM_ID_ATTEMPTS ≤ attempts := by omega
    rw [if_pos hid, if_neg h5, ih (attempts + 1) (k + 1) (draw k) (by omega) (hdraw k)]
    have hk : k + 1 + n = k + (n + 1) := by omega
    rw [hk]

theorem create_room_loop_ok_fresh (rooms : RoomMap) (draw : Nat → RoomId) :
    ∀ (n : Nat) (id : RoomId) (attempts k : Nat) (id' : RoomId) (k' : Nat),
      MAX_CREATE_ROOM_ID_ATTEMPTS + 1 ≤ attempts + n →
      create_room_loop rooms draw id attempts k = (Except.ok id', k') →
      containsKey rooms id' = false := by
  intro n
  induction n with
  | zero =>
    intro id attempts k id' k' hn h
    rw [create_room_loop_unfold] at h
    cases hid : containsKey rooms id with
    | true =>
      have h5 : MAX_CREATE_ROOM_ID_ATTEMPTS ≤ attempts := by omega
      rw [if_pos hid, if_pos h5] at h
      simp at h
    | false =>
      rw [if_neg (by simp [hid])] at h
      have hids : id = id' := by
        have := congrArg (fun x => x.1) h
        simpa using this
      rw [← hids]
      exact hid
  | succ n ih =>
    intro id attempts k id' k' hn h
    rw [create_room_loop_unfold] at h
    cases hid : containsKey rooms id with
    | true =>
      rw [if_pos hid] at h
      by_cases h5 : MAX_CREATE_ROOM_ID_ATTEMPTS ≤ attempts
      · rw [if_pos h5] at h
        simp at h
      · rw [if_neg h5] at h
        exact ih (draw k) (attempts + 1) (k + 1) id' k' (by omega) h
    | false =>
      rw [if_neg (by simp [hid])] at h
      have hids : id = id' := by
        have := congrArg (fun x => x.1) h
        simpa using this
      rw [← hids]
      exact hid

theorem containsKey_append (m₁ m₂ : RoomMap) (id : RoomId) :
    containsKey (m₁ ++ m₂) id = (containsKey m₁ id || containsKey m₂ id) := by
  simp [containsKey]

theorem containsKey_eq_false_iff (m : RoomMap) (id : RoomId) :
    containsKey m id = false ↔ ∀ p ∈ m, p.1 ≠ id := by
  simp [containsKey, List.any_eq_true]

theorem containsKey_eq_false_iff_not_mem_keys (m : RoomMap) (id : RoomId) :
    containsKey m id = false ↔ id ∉ mapKeys m := by
  rw [containsKey_eq_false_iff]
  simp only [mapKeys, List.mem_map]
  constructor
  · intro h hex
    obtain ⟨p, hp, hid⟩ := hex
    exact h p hp hid
  · intro h p hp hid
    exact h ⟨p, hp, hid⟩

theorem mapGet_eq_none_iff (m : RoomMap) (id : RoomId) :
    mapGet m id = none ↔ containsKey m id = false := by
  simp [mapGet, containsKey, List.find?_eq_none, List.any_eq_true]

theorem mapGet_mem (m : RoomMap) (id : RoomId) (room : Room)
    (h : mapGet m id = some room) : (id, room) ∈ m := by
  simp only [mapGet, Option.map_eq_some'] at h
  obtain ⟨q, hq, hq2⟩ := h
  have hmem := List.mem_of_find?_eq_some hq
  have hkey' : q.1 = id := by
    have hb := @List.find?_some _ (fun r => r.1 == id) q m hq
    simpa using hb
  have hqe : q = (id, room) := by
    cases q with
    | mk a b =>
      simp only at hkey' hq2
      rw [hkey', hq2]
  rw [← hqe]
  exact hmem

theorem mapInsert_absent (m : RoomMap) (id : RoomId) (room : Room)
    (h : containsKey m id = false) : mapInsert m id room = m ++ [(id, room)] := by
  simp [mapInsert, h]

theorem mapRemove_absent (m : RoomMap) (id : RoomId)
    (h : containsKey m id = false) : mapRemove m id = m := by
  rw [containsKey_eq_false_iff] at h
  simp only [mapRemove]
  apply List.filter_eq_self.mpr
  intro p hp
  simpa using h p hp

theorem mapRemove_idem (m : RoomMap) (id : RoomId) :
    mapRemove (mapRemove m id) id = mapRemove m id := by
  simp only [mapRemove]
  induction m with
  | nil => rfl
  | cons p rest ih =>
    by_cases hp : (p.1 == id) = true
    · simp [hp, ih]
    · have hp' : (p.1 == id) = false := by simpa using hp
      simp [hp', ih]

theorem containsKey_singleton (id x : RoomId) (room : Room) :
    containsKey [(id, room)] x = (id == x) := by
  simp [containsKey]

theorem room_new_id (id : RoomId) (s : Sender) (w : World) :
    ((Room.new id s w).1).id = id := rfl

theorem create_room_ok_cases (reg : RoomRegistry) (s : Sender) (draw : Nat → RoomId)
    (w : World) :
    (∃ e k, create_room_loop reg.rooms draw (draw 0) 0 1 = (Except.error e, k) ∧
      reg.create_room s draw w = ⟨Except.error e, reg, w, k⟩) ∨
    (∃ id k, create_room_loop reg.rooms draw (draw 0) 0 1 = (Except.ok id, k) ∧
      containsKey reg.rooms id = false ∧
      reg.create_room s draw w =
        ⟨Except.ok id, ⟨reg.rooms ++ [(id, (Room.new id s w).1)]⟩, (Room.new id s w).2, k⟩) := by
  match hl : create_room_loop reg.rooms draw (draw 0) 0 1 with
  | (Except.error e, k) =>
    left
    refine ⟨e, k, rfl, ?_⟩
    unfold RoomRegistry.create_room
    rw [hl]
  | (Except.ok id, k) =>
    right
    have hfresh : containsKey reg.rooms id = false :=
      create_room_loop_ok_fresh reg.rooms draw (MAX_CREATE_ROOM_ID_ATTEMPTS + 1)
        (draw 0) 0 1 id k (by omega) hl
    refine ⟨id, k, rfl, hfresh, ?_⟩
    unfold RoomRegistry.create_room
    rw [hl]
    simp [mapInsert_absent _ _ _ hfresh]

theorem create_room_registry_cases (reg : RoomRegistry) (s : Sender) (draw : Nat → RoomId)
    (w : World) :
    ((∃ e, (reg.create_room s draw w).result = Except.error e) ∧
      (reg.create_room s draw w).registry = reg ∧
      (reg.create_room s draw w).world = w) ∨
    (∃ id, (reg.create_room s draw w).result = Except.ok id ∧
      containsKey reg.rooms id = false ∧
      (reg.create_room s draw w).registry.rooms = reg.rooms ++ [(id, (Room.new id s w).1)]) := by
  rcases create_room_ok_cases reg s draw w with ⟨e, k, _, he⟩ | ⟨id, k, _, hfresh, he⟩
  · left
    rw [he]
    exact ⟨⟨e, rfl⟩, rfl, rfl⟩
  · right
    rw [he]
    exact ⟨id, rfl, hfresh, rfl⟩

theorem reachable_registryInv (reg : RoomRegistry) (h : Reachable reg) : registryInv reg := by
  induction h with
  | new =>
    constructor
    · intro p hp
      simp [RoomRegistry.new] at hp
    · simp [RoomRegistry.new, mapKeys]
  | create reg s draw w hr ih =>
    rcases create_room_registry_cases reg s draw w with ⟨_, heq, _⟩ | ⟨id, hok, hfresh, heq⟩
    · rw [heq]
      exact ih
    · constructor
      · intro p hp
        rw [heq] at hp
        rcases List.mem_append.mp hp with h1 | h2
        · exact ih.1 p h1
        · simp at h2
          rw [h2]
          rfl
      · show (mapKeys (reg.create_room s draw w).registry.rooms).Nodup
        rw [heq]
        have hkeys : mapKeys (reg.rooms ++ [(id, (Room.new id s w).1)]) =
            mapKeys reg.rooms ++ [id] := by
          simp [mapKeys]
        rw [hkeys]
        have hnotmem : id ∉ mapKeys reg.rooms :=
          (containsKey_eq_false_iff_not_mem_keys _ _).mp hfresh
        simp [List.nodup_append, ih.2, hnotmem]
  | delete reg id hr ih =>
    constructor
    · intro p hp
      have hp' : p ∈ reg.rooms := List.mem_of_mem_filter hp
      exact ih.1 p hp'
    · show (mapKeys (mapRemove reg.rooms id)).Nodup
      have hsub : List.Sublist (mapKeys (mapRemove reg.rooms id)) (mapKeys reg.rooms) :=
        List.Sublist.map _ (List.filter_sublist _)
      exact List.Nodup.sublist hsub ih.2

theorem run_creates_spec (calls : List (Sender × (Nat → RoomId))) :
    ∀ (reg : RoomRegistry) (w : World),
      (run_creates reg w calls).ids.Nodup ∧
      (∀ id ∈ (run_creates reg w calls).ids,
        containsKey (run_creates reg w calls).registry.rooms id = true) ∧
      (∀ id, containsKey reg.rooms id = true →
        containsKey (run_creates reg w calls).registry.rooms id = true ∧
        id ∉ (run_creates reg w calls).ids) := by
  induction calls with
  | nil =>
    intro reg w
    refine ⟨List.nodup_nil, ?_, ?_⟩
    · intro id hid
      simp [run_creates] at hid
    · intro id hid
      exact ⟨hid, by simp [run_creates]⟩
  | cons c rest ih =>
    intro reg w
    obtain ⟨s, draw⟩ := c
    rcases create_room_ok_cases reg s draw w with ⟨e, k, hl, he⟩ | ⟨id0, k, hl, hfresh, he⟩
    · have hrun : run_creates reg w ((s, draw) :: rest) = run_creates reg w rest := by
        simp only [run_creates, he]
      rw [hrun]
      exact ih reg w
    · have hrun : run_creates reg w ((s, draw) :: rest) =
          ⟨id0 :: (run_creates ⟨reg.rooms ++ [(id0, (Room.new id0 s w).1)]⟩
              (Room.new id0 s w).2 rest).ids,
            (run_creates ⟨reg.rooms ++ [(id0, (Room.new id0 s w).1)]⟩
              (Room.new id0 s w).2 rest).registry,
            (run_creates ⟨reg.rooms ++ [(id0, (Room.new id0 s w).1)]⟩
              (Room.new id0 s w).2 rest).world⟩ := by
        simp only [run_creates, he]
      obtain ⟨ihnd, ihmem, ihmono⟩ :=
        ih ⟨reg.rooms ++ [(id0, (Room.new id0 s w).1)]⟩ (Room.new id0 s w).2
      have hid0 : containsKey (reg.rooms ++ [(id0, (Room.new id0 s w).1)]) id0 = true := by
        rw [containsKey_append, containsKey_singleton]
        simp
      obtain ⟨hid0fin, hid0notin⟩ := ihmono id0 hid0
      rw [hrun]
      refine ⟨?_, ?_, ?_⟩
      · exact List.nodup_cons.mpr ⟨hid0notin, ihnd⟩
      · intro id hid
        rcases List.mem_cons.mp hid with h1 | h2
        · rw [h1]
          exact hid0fin
        · exact ihmem id h2
      · intro id hid
        have hne : id ≠ id0 := by
          intro hcontra
          rw [hcontra] at hid
          rw [hid] at hfresh
          exact absurd hfresh (by simp)
        have hmid : containsKey (reg.rooms ++ [(id0, (Room.new id0 s w).1)]) id = true := by
          rw [containsKey_append, hid]
          simp
        obtain ⟨hfin, hnotin⟩ := ihmono id hmid
        refine ⟨hfin, ?_⟩
        intro hmem
        rcases List.mem_cons.mp hmem with h1 | h2
        · exact hne h1
        · exact hnotin h2

theorem stepWorld_no_armed (w : World) (e : WorldEvent)
    (h : ∀ tm ∈ w.timers, tm.status ≠ TimerStatus.armed) :
    (stepWorld w e).channel = w.channel ∧ (stepWorld w e).timers = w.timers := by
  cases e with
  | advance d => exact ⟨rfl, rfl⟩
  | fire t =>
    cases hg : w.timers[t]? with
    | none =>
      simp [stepWorld, fireTimer, hg]
    | some timer =>
      have hmem : timer ∈ w.timers := List.getElem?_mem hg
      have hcond : ¬ (timer.status = TimerStatus.armed ∧ timer.deadline ≤ w.now) := by
        rintro ⟨h1, _⟩
        exact h timer hmem h1
      simp only [stepWorld, fireTimer, hg]
      rw [if_neg hcond]
      exact ⟨rfl, rfl⟩

theorem runWorld_no_armed (es : List WorldEvent) :
    ∀ (w : World), (∀ tm ∈ w.timers, tm.status ≠ TimerStatus.armed) →
      (runWorld w es).channel = w.channel ∧ (runWorld w es).timers = w.timers := by
  induction es with
  | nil => intro w _; exact ⟨rfl, rfl⟩
  | cons e es ih =>
    intro w h
    have hstep := stepWorld_no_armed w e h
    have h' : ∀ tm ∈ (stepWorld w e).timers, tm.status ≠ TimerStatus.armed := by
      rw [hstep.2]
      exact h
    have hrec := ih (stepWorld w e) h'
    refine ⟨?_, ?_⟩
    · show (runWorld (stepWorld w e) es).channel = w.channel
      rw [hrec.1, hstep.1]
    · show (runWorld (stepWorld w e) es).timers = w.timers
      rw [hrec.2, hstep.2]

theorem create_room_fresh_draw (reg : RoomRegistry) (s : Sender) (draw : Nat → RoomId)
    (w : World) (h : containsKey reg.rooms (draw 0) = false) :
    reg.create_room s draw w =
      ⟨Except.ok (draw 0), ⟨reg.rooms ++ [(draw 0, (Room.new (draw 0) s w).1)]⟩,
        (Room.new (draw 0) s w).2, 1⟩ := by
  have hl : create_room_loop reg.rooms draw (draw 0) 0 1 = (Except.ok (draw 0), 1) := by
    rw [create_room_loop_unfold]
    rw [if_neg (by simp [h])]
  unfold RoomRegistry.create_room
  rw [hl]
  simp [mapInsert_absent _ _ _ h]

theorem create_room_all_collide (reg : RoomRegistry) (s : Sender) (draw : Nat → RoomId)
    (w : World) (h : ∀ j, containsKey reg.rooms (draw j) = true) :
    reg.create_room s draw w =
      ⟨Except.error (RoomCreationError.UnableToCreateIdentifier MAX_CREATE_ROOM_ID_ATTEMPTS),
        reg, w, 6⟩ := by
  have hl := create_room_loop_all_collide reg.rooms draw h 5 0 1 (draw 0) (by rfl) (h 0)
  unfold RoomRegistry.create_room
  rw [hl]

theorem fireTimer_fireTimer (w : World) (t : Nat) :
    fireTimer (fireTimer w t) t = fireTimer w t := by
  cases hg : w.timers[t]? with
  | none =>
    have h1 : fireTimer w t = w := by simp [fireTimer, hg]
    rw [h1, h1]
  | some timer =>
    by_cases hc : timer.status = TimerStatus.armed ∧ timer.deadline ≤ w.now
    · have h1 : fireTimer w t =
        { w with timers := w.timers.set t { timer with status := TimerStatus.fired },
                 channel := w.channel ++ [timer.roomId] } := by
        simp [fireTimer, hg, hc]
      have hlt : t < w.timers.length := by
        rw [List.getElem?_eq_some] at hg
        exact hg.1
      have hg2 : (w.timers.set t { timer with status := TimerStatus.fired })[t]? =
          some { timer with status := TimerStatus.fired } := by
        rw [List.getElem?_set_self]
        simp [hlt]
      rw [h1]
      simp [fireTimer, hg2]
    · have h1 : fireTimer w t = w := by simp [fireTimer, hg, hc]
      rw [h1, h1]

theorem watch_step_empty (reg : RoomRegistry) (w : World) (h : w.channel = []) :
    watch_step reg w = (reg, w) := by
  unfold watch_step
  rw [h]

/-! Claim theorems. -/

/-- C5: `delete_room` is idempotent and cannot signal an error (its return
type is `()` in the source): deleting an id absent from the mapping leaves
the registry unchanged, and deleting the same id twice in a row yields the
same registry state as deleting it once. -/
theorem delete_room_idempotent (reg : RoomRegistry) (id : RoomId) :
    (containsKey reg.rooms id = false → reg.delete_room id = reg) ∧
    (reg.delete_room id).delete_room id = reg.delete_room id := by
  constructor
  · intro h
    show (⟨mapRemove reg.rooms id⟩ : RoomRegistry) = reg
    rw [mapRemove_absent reg.rooms id h]
  · show (⟨mapRemove (mapRemove reg.rooms id) id⟩ : RoomRegistry) =
      (⟨mapRemove reg.rooms id⟩ : RoomRegistry)
    rw [mapRemove_idem]

/-- Witness for C5 at a concrete input: deleting an id from the empty
registry leaves it unchanged. -/
theorem delete_room_idempotent_witness :
    RoomRegistry.new.delete_room ⟨0⟩ = RoomRegistry.new :=
  (delete_room_idempotent RoomRegistry.new ⟨0⟩).1 rfl

/-- C6: `get_room_for_id` is a pure lookup (it takes `&self`; in this
embedding it returns no registry, so it cannot change the state): it returns
`none` exactly when the queried id is not a key of the mapping — in
particular for any id never inserted — and when it returns a room, that room
is the stored entry for the queried id and, in every reachable registry, its
`id` field equals the queried id. -/
theorem get_room_for_id_lookup (reg : RoomRegistry) (id : RoomId) :
    (reg.get_room_for_id id = none ↔ containsKey reg.rooms id = false) ∧
    (∀ room, reg.get_room_for_id id = some room →
      (id, room) ∈ reg.rooms ∧ (Reachable reg → room.id = id)) := by
  constructor
  · exact mapGet_eq_none_iff reg.rooms id
  · intro room h
    have hmem : (id, room) ∈ reg.rooms := mapGet_mem reg.rooms id room h
    refine ⟨hmem, ?_⟩
    intro hr
    exact (reachable_registryInv reg hr).1 (id, room) hmem

/-- Witness for C6 at a concrete input: an id never inserted is not found. -/
theorem get_room_for_id_lookup_witness :
    RoomRegistry.new.get_room_for_id ⟨3⟩ = none :=
  (get_room_for_id_lookup RoomRegistry.new ⟨3⟩).1.mpr rfl

/-- C4: every reachable registry state — empty at construction, then closed
under `create_room` and `delete_room` (lookup and enumeration return no
registry) — satisfies the table invariants: every key equals the `id` field
of the room stored under it, and no two entries have equal keys. -/
theorem reachable_registry_invariant (reg : RoomRegistry) (h : Reachable reg) :
    (∀ p ∈ reg.rooms, p.2.id = p.1) ∧ (mapKeys reg.rooms).Nodup :=
  reachable_registryInv reg h

/-- Witness for C4 at a concrete reachable state: the keys of the freshly
constructed registry are pairwise distinct. -/
theorem reachable_registry_invariant_witness :
    (mapKeys RoomRegistry.new.rooms).Nodup :=
  (reachable_registry_invariant RoomRegistry.new Reachable.new).2

/-- C2: every successful `create_room` call accepts an id that was absent
from the mapping immediately before the insert (so no entry is overwritten
and the mapping grows by exactly one entry) and is present via
`get_room_for_id` afterwards; over any sequence of `create_room` calls
against one registry instance, the ids returned by the successful calls are
pairwise distinct and all present at the end. -/
theorem create_room_unique_ids :
    (∀ (reg : RoomRegistry) (s : Sender) (draw : Nat → RoomId) (w : World) (id : RoomId),
      (reg.create_room s draw w).result = Except.ok id →
      containsKey reg.rooms id = false ∧
      (reg.create_room s draw w).registry.rooms.length = reg.rooms.length + 1 ∧
      (reg.create_room s draw w).registry.get_room_for_id id ≠ none) ∧
    (∀ (w : World) (calls : List (Sender × (Nat → RoomId))),
      (run_creates RoomRegistry.new w calls).ids.Nodup ∧
      ∀ id ∈ (run_creates RoomRegistry.new w calls).ids,
        (run_creates RoomRegistry.new w calls).registry.get_room_for_id id ≠ none) := by
  constructor
  · intro reg s draw w id h
    rcases create_room_registry_cases reg s draw w with ⟨⟨e, he⟩, _, _⟩ | ⟨id', hok, hfresh, heq⟩
    · rw [he] at h
      simp at h
    · rw [hok] at h
      have hid : id' = id := by simpa using h
      subst hid
      refine ⟨hfresh, ?_, ?_⟩
      · rw [heq]
        simp
      · intro hnone
        simp only [RoomRegistry.get_room_for_id] at hnone
        rw [mapGet_eq_none_iff, heq, containsKey_append, containsKey_singleton] at hnone
        simp at hnone
  · intro w calls
    obtain ⟨hnd, hmem, _⟩ := run_creates_spec calls RoomRegistry.new w
    refine ⟨hnd, ?_⟩
    intro id hid hnone
    have hc := hmem id hid
    simp only [RoomRegistry.get_room_for_id] at hnone
    rw [mapGet_eq_none_iff] at hnone
    rw [hnone] at hc
    simp at hc

/-- Witness for C2 at a concrete input: creating a room in the empty registry
with a provider returning id 7 accepts a fresh id, grows the mapping by one,
and makes the id retrievable. -/
theorem create_room_unique_ids_witness :
    containsKey RoomRegistry.new.rooms ⟨7⟩ = false ∧
    (RoomRegistry.new.create_room ⟨0⟩ (fun _ => ⟨7⟩) ⟨0, [], []⟩).registry.rooms.length =
      RoomRegistry.new.rooms.length + 1 ∧
    (RoomRegistry.new.create_room ⟨0⟩ (fun _ => ⟨7⟩) ⟨0, [], []⟩).registry.get_room_for_id
      ⟨7⟩ ≠ none :=
  create_room_unique_ids.1 RoomRegistry.new ⟨0⟩ (fun _ => ⟨7⟩) ⟨0, [], []⟩ ⟨7⟩
    (by rw [create_room_fresh_draw RoomRegistry.new ⟨0⟩ (fun _ => ⟨7⟩) ⟨0, [], []⟩ rfl])

/-- C1: with a provider that always returns `V`, the first `create_room`
call on a fresh registry succeeds and inserts room `V`; a second call on the
same registry returns `UnableToCreateIdentifier 5` after six total draws
(one initial draw plus five redraws), and the mapping afterwards is exactly
the mapping from before the failing call, still containing only room `V`. -/
theorem constant_provider_bounded_retry (V : RoomId) (sa sb : Sender) (w : World)
    (r1 r2 : CreateResult)
    (h1 : RoomRegistry.new.create_room sa (fun _ => V) w = r1)
    (h2 : r1.registry.create_room sb (fun _ => V) r1.world = r2) :
    r1.result = Except.ok V ∧
    mapKeys r1.registry.rooms = [V] ∧
    r2.result = Except.error (RoomCreationError.UnableToCreateIdentifier 5) ∧
    r2.draws = 6 ∧
    r2.registry = r1.registry := by
  subst h1
  subst h2
  have hh1 : RoomRegistry.new.create_room sa (fun _ => V) w =
      ⟨Except.ok V, ⟨[(V, (Room.new V sa w).1)]⟩, (Room.new V sa w).2, 1⟩ := by
    simpa using create_room_fresh_draw RoomRegistry.new sa (fun _ => V) w rfl
  have hreg : (RoomRegistry.new.create_room sa (fun _ => V) w).registry =
      ⟨[(V, (Room.new V sa w).1)]⟩ := by rw [hh1]
  have hworld : (RoomRegistry.new.create_room sa (fun _ => V) w).world =
      (Room.new V sa w).2 := by rw [hh1]
  have hcoll : ∀ j : Nat, containsKey ((⟨[(V, (Room.new V sa w).1)]⟩ : RoomRegistry).rooms)
      V = true := by
    intro j
    simp [containsKey]
  have hh2 : (RoomRegistry.new.create_room sa (fun _ => V) w).registry.create_room sb
      (fun _ => V) (RoomRegistry.new.create_room sa (fun _ => V) w).world =
      ⟨Except.error (RoomCreationError.UnableToCreateIdentifier MAX_CREATE_ROOM_ID_ATTEMPTS),
        ⟨[(V, (Room.new V sa w).1)]⟩, (Room.new V sa w).2, 6⟩ := by
    rw [hreg, hworld]
    exact create_room_all_collide _ sb (fun _ => V) _ hcoll
  refine ⟨?_, ?_, ?_, ?_, ?_⟩
  · rw [hh1]
  · rw [hreg]
    simp [mapKeys]
  · rw [hh2]
    rfl
  · rw [hh2]
  · rw [hh2, hreg]

/-- Witness for C1 at a concrete input: with the provider constantly
returning id 0, the second call consumes six draws. -/
theorem constant_provider_bounded_retry_witness :
    ((RoomRegistry.new.create_room ⟨0⟩ (fun _ => ⟨0⟩) ⟨0, [], []⟩).registry.create_room ⟨1⟩
      (fun _ => ⟨0⟩)
      (RoomRegistry.new.create_room ⟨0⟩ (fun _ => ⟨0⟩) ⟨0, [], []⟩).world).draws = 6 :=
  (constant_provider_bounded_retry ⟨0⟩ ⟨0⟩ ⟨1⟩ ⟨0, [], []⟩ _ _ rfl rfl).2.2.2.1

/-- C10: equality of `Room` values (the `PartialEq` implementation) is
determined solely by the `id` field: two rooms compare equal exactly when
their ids are equal, regardless of their player lists or timer handles; in
particular a freshly constructed room (empty player set, armed timer)
compares equal to any room carrying the same id. -/
theorem room_eq_by_id :
    (∀ a b : Room, (Room.eq a b = true ↔ a.id = b.id)) ∧
    (∀ (id : RoomId) (dc dc' : Sender) (w : World) (pl : List Player) (h : Option Nat),
      Room.eq ((Room.new id dc w).1) ⟨id, dc', h, pl⟩ = true) := by
  constructor
  · intro a b
    simp [Room.eq]
  · intro id dc dc' w pl h
    simp [Room.eq, room_new_id]

/-- Witness for C10 at a concrete input: a fresh room with id 1 compares
equal to a room with id 1, a different sender, no timer handle, and a
nonempty player list. -/
theorem room_eq_by_id_witness :
    Room.eq ((Room.new ⟨1⟩ ⟨0⟩ ⟨0, [], []⟩).1) ⟨⟨1⟩, ⟨5⟩, none, [⟨⟨9⟩⟩]⟩ = true :=
  room_eq_by_id.2 ⟨1⟩ ⟨0⟩ ⟨5⟩ ⟨0, [], []⟩ [⟨⟨9⟩⟩] none

/-- C3 counterexample: invoking the scheduling operation while a timer is
already armed does not make the previously armed timer unable to fire.
Concretely: `Room::new` arms timer 0; a second `schedule_deletion` spawns
timer 1 and overwrites the handle, after which both timers are armed
(two live timers), and once the idle window elapses the previously armed
timer 0 still fires and produces a deletion request on the channel. -/
theorem schedule_deletion_detaches_cex :
    (fireTimer (advanceTime ((Room.new ⟨0⟩ ⟨0⟩ ⟨0, [], []⟩).1.schedule_deletion
        (Room.new ⟨0⟩ ⟨0⟩ ⟨0, [], []⟩).2).2 DEFAULT_DELETION_TIMEOUT_SECONDS) 0).channel =
      [⟨0⟩] ∧
    ((Room.new ⟨0⟩ ⟨0⟩ ⟨0, [], []⟩).1.schedule_deletion
        (Room.new ⟨0⟩ ⟨0⟩ ⟨0, [], []⟩).2).2.timers =
      [⟨⟨0⟩, 30, TimerStatus.armed⟩, ⟨⟨0⟩, 30, TimerStatus.armed⟩] :=
  ⟨rfl, rfl⟩

/-- C3 amended: a `Room` holds at most one timer handle at any time (the
handle is a single `Option` field), and invoking the scheduling operation
while a timer is already armed replaces the room's handle with the newly
spawned timer's handle; the previously armed timer, however, is not aborted:
it is left unchanged (detached) and can still fire and produce a deletion
request. Each timer instance fires at most once, and after cancellation the
room holds no handle. -/
theorem schedule_deletion_replaces_handle (room : Room) (w : World) :
    ((room.schedule_deletion w).1.deletion_handle = some w.timers.length) ∧
    (∀ t, t < w.timers.length → ((room.schedule_deletion w).2.timers)[t]? = w.timers[t]?) ∧
    (∀ (w' : World) (t : Nat), fireTimer (fireTimer w' t) t = fireTimer w' t) ∧
    (∀ (r : Room) (w' : World), (r.cancel_deletion w').1.deletion_handle = none) := by
  refine ⟨rfl, ?_, ?_, ?_⟩
  · intro t ht
    show (w.timers ++
        [⟨room.id, w.now + DEFAULT_DELETION_TIMEOUT_SECONDS, TimerStatus.armed⟩])[t]? =
      w.timers[t]?
    rw [List.getElem?_append_left ht]
  · intro w' t
    exact fireTimer_fireTimer w' t
  · intro r w'
    cases hr : r.deletion_handle with
    | none => simp [Room.cancel_deletion, hr]
    | some h => simp [Room.cancel_deletion, hr]

/-- Witness for C3's amended theorem at a concrete input: re-scheduling
leaves the previously armed timer entry untouched. -/
theorem schedule_deletion_replaces_handle_witness :
    (((⟨⟨0⟩, ⟨0⟩, none, []⟩ : Room).schedule_deletion
      ⟨0, [⟨⟨1⟩, 5, TimerStatus.armed⟩], []⟩).2.timers)[0]? =
      (⟨0, [⟨⟨1⟩, 5, TimerStatus.armed⟩], []⟩ : World).timers[0]? :=
  (schedule_deletion_replaces_handle ⟨⟨0⟩, ⟨0⟩, none, []⟩
    ⟨0, [⟨⟨1⟩, 5, TimerStatus.armed⟩], []⟩).2.1 0 (by decide)

/-- C7: if a room is created and its timer is neither cancelled nor
re-armed, then once the 30-second idle window has elapsed the armed timer
fires and the deletion-request channel receives exactly one message equal to
the room's id (the consumed timer cannot fire again); once the deletion
handler's watch loop processes that message — taking the registry lock and
calling `delete_room` — `get_room_for_id` for that id returns `none`. -/
theorem idle_expiry_pipeline (V : RoomId) (s : Sender) (w : World) (r : CreateResult)
    (hch : w.channel = [])
    (h1 : RoomRegistry.new.create_room s (fun _ => V) w = r) :
    r.result = Except.ok V ∧
    r.world.timers[w.timers.length]? =
      some ⟨V, w.now + DEFAULT_DELETION_TIMEOUT_SECONDS, TimerStatus.armed⟩ ∧
    (fireTimer (advanceTime r.world DEFAULT_DELETION_TIMEOUT_SECONDS)
        w.timers.length).channel = [V] ∧
    fireTimer (fireTimer (advanceTime r.world DEFAULT_DELETION_TIMEOUT_SECONDS)
        w.timers.length) w.timers.length =
      fireTimer (advanceTime r.world DEFAULT_DELETION_TIMEOUT_SECONDS) w.timers.length ∧
    (watch_step r.registry
        (fireTimer (advanceTime r.world DEFAULT_DELETION_TIMEOUT_SECONDS)
          w.timers.length)).1.get_room_for_id V = none := by
  subst h1
  have hh1 : RoomRegistry.new.create_room s (fun _ => V) w =
      ⟨Except.ok V, ⟨[(V, (Room.new V s w).1)]⟩, (Room.new V s w).2, 1⟩ := by
    simpa using create_room_fresh_draw RoomRegistry.new s (fun _ => V) w rfl
  have hreg : (RoomRegistry.new.create_room s (fun _ => V) w).registry =
      ⟨[(V, (Room.new V s w).1)]⟩ := by rw [hh1]
  have hworld : (RoomRegistry.new.create_room s (fun _ => V) w).world =
      (Room.new V s w).2 := by rw [hh1]
  have hget : (w.timers ++
      [⟨V, w.now + DEFAULT_DELETION_TIMEOUT_SECONDS, TimerStatus.armed⟩])[w.timers.length]? =
      some ⟨V, w.now + DEFAULT_DELETION_TIMEOUT_SECONDS, TimerStatus.armed⟩ :=
    List.getElem?_concat_length _ _
  have hadv : advanceTime (Room.new V s w).2 DEFAULT_DELETION_TIMEOUT_SECONDS =
      ⟨w.now + DEFAULT_DELETION_TIMEOUT_SECONDS,
        w.timers ++ [⟨V, w.now + DEFAULT_DELETION_TIMEOUT_SECONDS, TimerStatus.armed⟩],
        w.channel⟩ := rfl
  have hfire : fireTimer (advanceTime (Room.new V s w).2 DEFAULT_DELETION_TIMEOUT_SECONDS)
      w.timers.length =
      ⟨w.now + DEFAULT_DELETION_TIMEOUT_SECONDS,
        (w.timers ++ [(⟨V, w.now + DEFAULT_DELETION_TIMEOUT_SECONDS,
            TimerStatus.armed⟩ : Timer)]).set
          w.timers.length (⟨V, w.now + DEFAULT_DELETION_TIMEOUT_SECONDS,
            TimerStatus.fired⟩ : Timer),
        w.channel ++ [V]⟩ := by
    rw [hadv]
    simp [fireTimer, hget]
  refine ⟨?_, ?_, ?_, ?_, ?_⟩
  · rw [hh1]
  · rw [hworld]
    exact hget
  · rw [hworld, hfire, hch]
    rfl
  · rw [hworld]
    exact fireTimer_fireTimer _ _
  · rw [hworld, hreg, hfire, hch]
    simp [watch_step, RoomRegistry.delete_room, mapRemove, RoomRegistry.get_room_for_id,
      mapGet]

/-- Witness for C7 at a concrete input: the fired timer's deletion request
reaches the channel exactly once. -/
theorem idle_expiry_pipeline_witness :
    (fireTimer (advanceTime
        (RoomRegistry.new.create_room ⟨0⟩ (fun _ => ⟨4⟩) ⟨0, [], []⟩).world
        DEFAULT_DELETION_TIMEOUT_SECONDS) 0).channel = [⟨4⟩] :=
  (idle_expiry_pipeline ⟨4⟩ ⟨0⟩ ⟨0, [], []⟩ _ rfl rfl).2.2.1

/-- C8: cancelling a room's armed deletion timer before the idle window
elapses aborts the timer task and clears the handle; no deletion request is
ever sent on the channel for that arming, whatever runtime events follow, so
the room is still present in the registry after the original window would
have elapsed (even once the deletion handler runs); and calling
`cancel_deletion` when no timer handle is held is a no-op that leaves the
room unscheduled. -/
theorem cancellation_prevents_deletion (V : RoomId) (s : Sender) (n : Nat)
    (r : CreateResult)
    (h1 : RoomRegistry.new.create_room s (fun _ => V) ⟨n, [], []⟩ = r) :
    ((Room.new V s ⟨n, [], []⟩).1.cancel_deletion r.world).2.timers =
      [⟨V, n + DEFAULT_DELETION_TIMEOUT_SECONDS, TimerStatus.aborted⟩] ∧
    ((Room.new V s ⟨n, [], []⟩).1.cancel_deletion r.world).1.deletion_handle = none ∧
    (∀ es : List WorldEvent,
      (runWorld ((Room.new V s ⟨n, [], []⟩).1.cancel_deletion r.world).2 es).channel = []) ∧
    (∀ es : List WorldEvent,
      RoomRegistry.get_room_for_id
          (watch_step r.registry
            (runWorld ((Room.new V s ⟨n, [], []⟩).1.cancel_deletion r.world).2 es)).1 V =
        r.registry.get_room_for_id V ∧
      r.registry.get_room_for_id V ≠ none) ∧
    (∀ (rm : Room) (w' : World), rm.deletion_handle = none →
      rm.cancel_deletion w' = (rm, w')) := by
  subst h1
  have hh1 : RoomRegistry.new.create_room s (fun _ => V) (⟨n, [], []⟩ : World) =
      ⟨Except.ok V, ⟨[(V, (Room.new V s ⟨n, [], []⟩).1)]⟩, (Room.new V s ⟨n, [], []⟩).2, 1⟩ := by
    simpa using create_room_fresh_draw RoomRegistry.new s (fun _ => V) ⟨n, [], []⟩ rfl
  have hreg : (RoomRegistry.new.create_room s (fun _ => V) (⟨n, [], []⟩ : World)).registry =
      ⟨[(V, (Room.new V s ⟨n, [], []⟩).1)]⟩ := by rw [hh1]
  have hworld : (RoomRegistry.new.create_room s (fun _ => V) (⟨n, [], []⟩ : World)).world =
      (Room.new V s ⟨n, [], []⟩).2 := by rw [hh1]
  have hcan : (Room.new V s (⟨n, [], []⟩ : World)).1.cancel_deletion
      (Room.new V s ⟨n, [], []⟩).2 =
      ((⟨V, s, none, []⟩ : Room),
        (⟨n, [⟨V, n + DEFAULT_DELETION_TIMEOUT_SECONDS, TimerStatus.aborted⟩], []⟩ : World)) :=
    rfl
  have hnoarm : ∀ tm ∈ ((⟨n, [⟨V, n + DEFAULT_DELETION_TIMEOUT_SECONDS,
      TimerStatus.aborted⟩], []⟩ : World)).timers, tm.status ≠ TimerStatus.armed := by
    intro tm hm
    simp at hm
    rw [hm]
    simp
  refine ⟨?_, ?_, ?_, ?_, ?_⟩
  · rw [hworld, hcan]
  · rw [hworld, hcan]
  · intro es
    rw [hworld, hcan]
    exact (runWorld_no_armed es _ hnoarm).1
  · intro es
    have hch : (runWorld ((Room.new V s (⟨n, [], []⟩ : World)).1.cancel_deletion
        (RoomRegistry.new.create_room s (fun _ => V) ⟨n, [], []⟩).world).2 es).channel = [] := by
      rw [hworld, hcan]
      exact (runWorld_no_armed es _ hnoarm).1
    rw [watch_step_empty _ _ hch]
    refine ⟨rfl, ?_⟩
    rw [hreg]
    simp [RoomRegistry.get_room_for_id, mapGet]
  · intro rm w' hrm
    cases rm with
    | mk id dc dh pl =>
      simp only at hrm
      rw [Room.cancel_deletion, hrm]

/-- Witness for C8 at a concrete input: cancellation aborts the armed timer
spawned at room creation. -/
theorem cancellation_prevents_deletion_witness :
    ((Room.new ⟨0⟩ ⟨0⟩ ⟨0, [], []⟩).1.cancel_deletion
        (RoomRegistry.new.create_room ⟨0⟩ (fun _ => ⟨0⟩) ⟨0, [], []⟩).world).2.timers =
      [⟨⟨0⟩, 0 + DEFAULT_DELETION_TIMEOUT_SECONDS, TimerStatus.aborted⟩] :=
  (cancellation_prevents_deletion ⟨0⟩ ⟨0⟩ 0 _ rfl).1

/-- C9: `list_active_rooms` returns exactly the UUID-hex text renderings of
the current keys of the mapping, one per key (and, taking `&self`, it cannot
modify the registry); after creating rooms with distinct ids `a`, `b`, `c`
it contains exactly their renderings, and after deleting `b` it contains
exactly the renderings of `a` and `c`, order-independent. -/
theorem list_active_rooms_enumeration :
    (∀ reg : RoomRegistry, reg.list_active_rooms = (mapKeys reg.rooms).map RoomId.display) ∧
    (∀ (a b c : RoomId) (s : Sender) (w : World) (r1 r2 r3 : CreateResult),
      a ≠ b → a ≠ c → b ≠ c →
      RoomRegistry.new.create_room s (fun _ => a) w = r1 →
      r1.registry.create_room s (fun _ => b) r1.world = r2 →
      r2.registry.create_room s (fun _ => c) r2.world = r3 →
      List.Perm r3.registry.list_active_rooms
        [RoomId.display a, RoomId.display b, RoomId.display c] ∧
      List.Perm ((r3.registry.delete_room b).list_active_rooms)
        [RoomId.display a, RoomId.display c]) := by
  constructor
  · intro reg
    rfl
  · intro a b c s w r1 r2 r3 hab hac hbc h1 h2 h3
    subst h1
    subst h2
    subst h3
    have hxab : (a == b) = false := beq_eq_false_iff_ne.mpr hab
    have hxac : (a == c) = false := beq_eq_false_iff_ne.mpr hac
    have hxbc : (b == c) = false := beq_eq_false_iff_ne.mpr hbc
    have hxcb : (c == b) = false := beq_eq_false_iff_ne.mpr (Ne.symm hbc)
    have hh1 : RoomRegistry.new.create_room s (fun _ => a) w =
        ⟨Except.ok a, ⟨[(a, (Room.new a s w).1)]⟩, (Room.new a s w).2, 1⟩ := by
      simpa using create_room_fresh_draw RoomRegistry.new s (fun _ => a) w rfl
    have hh2 : (⟨[(a, (Room.new a s w).1)]⟩ : RoomRegistry).create_room s (fun _ => b)
        (Room.new a s w).2 =
        ⟨Except.ok b,
          ⟨[(a, (Room.new a s w).1), (b, (Room.new b s (Room.new a s w).2).1)]⟩,
          (Room.new b s (Room.new a s w).2).2, 1⟩ := by
      simpa using create_room_fresh_draw ⟨[(a, (Room.new a s w).1)]⟩ s (fun _ => b)
        (Room.new a s w).2 (by simp [containsKey, hxab])
    have hh3 : (⟨[(a, (Room.new a s w).1),
          (b, (Room.new b s (Room.new a s w).2).1)]⟩ : RoomRegistry).create_room s
        (fun _ => c) (Room.new b s (Room.new a s w).2).2 =
        ⟨Except.ok c,
          ⟨[(a, (Room.new a s w).1), (b, (Room.new b s (Room.new a s w).2).1),
            (c, (Room.new c s (Room.new b s (Room.new a s w).2).2).1)]⟩,
          (Room.new c s (Room.new b s (Room.new a s w).2).2).2, 1⟩ := by
      simpa using create_room_fresh_draw
        ⟨[(a, (Room.new a s w).1), (b, (Room.new b s (Room.new a s w).2).1)]⟩ s
        (fun _ => c) (Room.new b s (Room.new a s w).2).2
        (by simp [containsKey, hxac, hxbc])
    have hlist : ∀ ra rb rc : Room,
        (⟨[(a, ra), (b, rb), (c, rc)]⟩ : RoomRegistry).list_active_rooms =
          [RoomId.display a, RoomId.display b, RoomId.display c] := by
      intro ra rb rc
      simp [RoomRegistry.list_active_rooms, mapKeys]
    have hdel : ∀ ra rb rc : Room,
        ((⟨[(a, ra), (b, rb), (c, rc)]⟩ : RoomRegistry).delete_room b).list_active_rooms =
          [RoomId.display a, RoomId.display c] := by
      intro ra rb rc
      simp [RoomRegistry.delete_room, mapRemove, RoomRegistry.list_active_rooms, mapKeys,
        hxab, hxcb]
    rw [hh1]
    dsimp only
    rw [hh2]
    dsimp only
    rw [hh3]
    dsimp only
    rw [hlist, hdel]
    exact ⟨List.Perm.refl _, List.Perm.refl _⟩

/-- Witness for C9 at a concrete input: after creating rooms 0, 1, 2 and
deleting room 1, the enumeration contains exactly the renderings of 0
and 2. -/
theorem list_active_rooms_enumeration_witness :
    List.Perm (((((RoomRegistry.new.create_room ⟨0⟩ (fun _ => ⟨0⟩)
          ⟨0, [], []⟩).registry.create_room ⟨0⟩ (fun _ => ⟨1⟩)
          (RoomRegistry.new.create_room ⟨0⟩ (fun _ => ⟨0⟩)
            ⟨0, [], []⟩).world).registry.create_room ⟨0⟩ (fun _ => ⟨2⟩)
          ((RoomRegistry.new.create_room ⟨0⟩ (fun _ => ⟨0⟩)
            ⟨0, [], []⟩).registry.create_room ⟨0⟩ (fun _ => ⟨1⟩)
          (RoomRegistry.new.create_room ⟨0⟩ (fun _ => ⟨0⟩)
            ⟨0, [], []⟩).world).world).registry.delete_room
        ⟨1⟩).list_active_rooms)
      [RoomId.display ⟨0⟩, RoomId.display ⟨2⟩] :=
  (list_active_rooms_enumeration.2 ⟨0⟩ ⟨1⟩ ⟨2⟩ ⟨0⟩ ⟨0, [], []⟩ _ _ _
    (by decide) (by decide) (by decide) rfl rfl rfl).2

end Wormhole
